/-
Verification of the Outlook mail tool (CSV/PST mail reader with sender
management, export and dashboard aggregation) against its specification.

The embedding models Python strings as `List Char` (the repository's data is
ASCII throughout; `Char.toLower` models `str.lower`, `Char.isWhitespace`
models `str.strip`'s whitespace test).  A pandas `DataFrame` of mail rows is
modelled as a `List MailRecord`; the `'De: (nombre)'` column of the CSV data
and the `'Sender'` column of the PST data are both modelled by the `sender`
field.  Third-party extraction routines (aspose PST parsing, `pd.read_csv`)
are parameters of the corresponding definitions: each is an oracle the code
calls, and every theorem quantifies over it.
-/
import Mathlib

namespace OutlookTool

/-- Model of `str.lower` (ASCII). -/
def lowerStr (s : List Char) : List Char := s.map Char.toLower

/-- Model of `str.strip`: drop leading and trailing whitespace. -/
def stripChars (s : List Char) : List Char :=
  ((s.dropWhile Char.isWhitespace).reverse.dropWhile Char.isWhitespace).reverse

/-- One mail row: `Sender` / `De: (nombre)`, `Subject`, `Date` (timestamp in
minutes since the epoch). -/
structure MailRecord where
  sender : List Char
  subject : List Char
  date : Nat
deriving DecidableEq

/-- `self.df[self.df['De: (nombre)'] != sender_name]`: the filtering step of
`CSVMailReader.remove_sender`. -/
def remove_sender_df (sender_name : List Char) (df : List MailRecord) : List MailRecord :=
  df.filter (fun r => r.sender ≠ sender_name)

/-- The senders column of a record table. -/
def sendersOf (df : List MailRecord) : List (List Char) :=
  df.map MailRecord.sender

/-- Number of rows of `df` whose sender equals `s`. -/
def countSender (df : List MailRecord) (s : List Char) : Nat :=
  (df.filter (fun r => r.sender = s)).length

/-- `CSVMailReader.update_senders`: `value_counts` of the sender column as a
`(Sender, Count)` table — one row per distinct sender with its frequency. -/
def update_senders (df : List MailRecord) : List (List Char × Nat) :=
  (sendersOf df).dedup.map (fun s => (s, countSender df s))

theorem countSender_remove_sender (df : List MailRecord) (s t : List Char) :
    countSender (remove_sender_df s df) t = if t = s then 0 else countSender df t := by
  unfold countSender remove_sender_df
  rw [List.filter_filter]
  by_cases h : t = s
  · subst h
    rw [if_pos rfl, List.length_eq_zero]
    apply List.filter_eq_nil_iff.2
    intro r _
    simp
  · rw [if_neg h]
    congr 1
    apply List.filter_congr
    intro r _
    by_cases hr : r.sender = t
    · have hrs : r.sender ≠ s := fun hcon => h (hr ▸ hcon)
      simp [hr, hrs, h]
    · simp [hr]

theorem count_remove_sender (df : List MailRecord) (s : List Char) (r : MailRecord) :
    (remove_sender_df s df).count r = if r.sender = s then 0 else df.count r := by
  unfold remove_sender_df
  by_cases hs : r.sender = s
  · rw [if_pos hs, List.count_eq_zero]
    intro hmem
    have h2 := List.of_mem_filter hmem
    simp at h2
    exact h2 hs
  · rw [if_neg hs, List.count_eq_countP, List.count_eq_countP,
      List.countP_eq_length_filter, List.countP_eq_length_filter, List.filter_filter]
    congr 1
    apply List.filter_congr
    intro x _
    by_cases h : x = r
    · subst h
      simp [hs]
    · simp [h]

theorem countSender_pos_iff (df : List MailRecord) (t : List Char) :
    0 < countSender df t ↔ t ∈ sendersOf df := by
  unfold countSender sendersOf
  rw [← List.countP_eq_length_filter, List.countP_pos_iff, List.mem_map]
  constructor
  · rintro ⟨r, hr, hp⟩
    exact ⟨r, hr, by simpa using hp⟩
  · rintro ⟨r, hr, hp⟩
    exact ⟨r, hr, by simp [hp]⟩

theorem mem_update_senders (df : List MailRecord) (t : List Char) (c : Nat) :
    (t, c) ∈ update_senders df ↔ 0 < countSender df t ∧ c = countSender df t := by
  unfold update_senders
  rw [List.mem_map]
  constructor
  · rintro ⟨a, ha, heq⟩
    injection heq with h1 h2
    subst h1
    subst h2
    rw [List.mem_dedup] at ha
    exact ⟨(countSender_pos_iff df _).2 ha, rfl⟩
  · rintro ⟨hpos, hc⟩
    exact ⟨t, List.mem_dedup.2 ((countSender_pos_iff df t).1 hpos), by rw [hc]⟩

/-- The known Teams suffix variants of `CSVMailReader.normalize_senders`, in
source order. -/
def teams_variants : List (List Char) :=
  ["en teams".data, "in teams".data, "auf teams".data, "sur teams".data, "su teams".data]

/-- `normalize_name` from `CSVMailReader.normalize_senders`: when the
lowercased sender ends in a known variant, return
`sender[:-(len(variant) + 1)].strip()` — the sender without its last
`len(variant) + 1` characters, whitespace-stripped; otherwise return the
sender unchanged. -/
def normalize_name (sender : List Char) : List Char :=
  match teams_variants.find? (fun v => v.isSuffixOf (lowerStr sender)) with
  | some v => stripChars (sender.take (sender.length - (v.length + 1)))
  | none => sender

/-- The specification's reading of normalization: the prefix of the sender
strictly before the matched suffix, with surrounding whitespace trimmed. -/
def normalize_name_claim (sender : List Char) : List Char :=
  match teams_variants.find? (fun v => v.isSuffixOf (lowerStr sender)) with
  | some v => stripChars (sender.take (sender.length - v.length))
  | none => sender

/-- C1: `remove_sender` removes exactly the rows whose sender column equals
`s` — each row with sender `s` disappears entirely, every other row keeps its
multiplicity — and afterwards the recomputed frequency table
(`update_senders`) lists exactly the senders still present, each with the
per-sender count of the remaining rows. -/
theorem remove_sender_exact (df : List MailRecord) (s : List Char) :
    (∀ r : MailRecord,
        (remove_sender_df s df).count r = if r.sender = s then 0 else df.count r) ∧
    (∀ t, countSender (remove_sender_df s df) t = if t = s then 0 else countSender df t) ∧
    (∀ t c, (t, c) ∈ update_senders (remove_sender_df s df) ↔
        0 < countSender (remove_sender_df s df) t ∧
          c = countSender (remove_sender_df s df) t) :=
  ⟨fun r => count_remove_sender df s r,
   fun t => countSender_remove_sender df s t,
   fun t c => mem_update_senders (remove_sender_df s df) t c⟩

/-- C2 counterexample: on the sender `"Xen teams"`, which ends
(case-insensitively) in the known variant `"en teams"`, the code's
normalization yields `""` — it drops the suffix plus the character before it —
while the claim's "prefix of s before that suffix, trimmed" would be `"X"`. -/
theorem normalize_name_ne_claim :
    normalize_name "Xen teams".data = [] ∧
      normalize_name_claim "Xen teams".data = ['X'] ∧
      normalize_name "Xen teams".data ≠ normalize_name_claim "Xen teams".data := by
  refine ⟨by decide, by decide, by decide⟩

/-- C2 (amended): when the lowercased sender ends in a known variant (the
first such variant in source order being `v`), normalization returns the
sender without its final `v.length + 1` characters — the suffix plus the one
character preceding it — whitespace-stripped (equal to the trimmed prefix
before the suffix exactly when that extra character is whitespace or absent);
a sender ending in no known variant is returned unchanged. -/
theorem normalize_name_cases (s : List Char) :
    (∃ v ∈ teams_variants, v <:+ lowerStr s ∧
        normalize_name s = stripChars (s.take (s.length - (v.length + 1)))) ∨
    ((∀ v ∈ teams_variants, ¬ v <:+ lowerStr s) ∧ normalize_name s = s) := by
  unfold normalize_name
  cases hf : teams_variants.find? (fun v => v.isSuffixOf (lowerStr s)) with
  | none =>
    right
    refine ⟨?_, rfl⟩
    intro v hv
    have hnp := List.find?_eq_none.1 hf v hv
    simpa using hnp
  | some v =>
    left
    refine ⟨v, List.mem_of_find?_eq_some hf, ?_, rfl⟩
    have hp := List.find?_some hf
    simpa using hp

/-- The mutable state of a `CSVMailReader`: the record table `df` and the
frequency view `senders_df`.  In the class, `senders_df` is recomputed by
`update_senders` in `__init__` and after every mutation, so every reachable
state satisfies `senders_df = update_senders df`. -/
structure ReaderState where
  df : List MailRecord
  senders_df : List (List Char × Nat)
deriving DecidableEq

/-- `CSVMailReader.remove_sender` acting on the state: filter the table and
recompute the frequency view. -/
def remove_sender (sender_name : List Char) (st : ReaderState) : ReaderState :=
  ⟨remove_sender_df sender_name st.df, update_senders (remove_sender_df sender_name st.df)⟩

/-- One iteration of the `load_unwanted_list` loop: when the sender appears
in the `Sender` column of `senders_df`, remove it. -/
def apply_unwanted (st : ReaderState) (sender : List Char) : ReaderState :=
  if sender ∈ st.senders_df.map Prod.fst then remove_sender sender st else st

/-- `CSVMailReader.load_unwanted_list`: remove every sender of the unwanted
list that is currently present. -/
def load_unwanted_list (unwanted : List (List Char)) (st : ReaderState) : ReaderState :=
  unwanted.foldl apply_unwanted st

theorem mem_update_senders_keys (df : List MailRecord) (s : List Char) :
    s ∈ (update_senders df).map Prod.fst ↔ 0 < countSender df s := by
  unfold update_senders
  rw [List.map_map]
  have hid : (Prod.fst ∘ fun s => (s, countSender df s)) = id := rfl
  rw [hid, List.map_id, List.mem_dedup]
  exact (countSender_pos_iff df s).symm

theorem apply_unwanted_synced (st : ReaderState)
    (h : st.senders_df = update_senders st.df) (s : List Char) :
    (apply_unwanted st s).senders_df = update_senders (apply_unwanted st s).df := by
  unfold apply_unwanted
  split
  · rfl
  · exact h

theorem countSender_apply_unwanted_le (st : ReaderState) (s t : List Char) :
    countSender (apply_unwanted st s).df t ≤ countSender st.df t := by
  unfold apply_unwanted
  split
  · show countSender (remove_sender_df s st.df) t ≤ _
    rw [countSender_remove_sender]
    split
    · exact Nat.zero_le _
    · exact le_refl _
  · exact le_refl _

theorem countSender_apply_unwanted_self (st : ReaderState)
    (h : st.senders_df = update_senders st.df) (s : List Char) :
    countSender (apply_unwanted st s).df s = 0 := by
  unfold apply_unwanted
  split
  · show countSender (remove_sender_df s st.df) s = 0
    rw [countSender_remove_sender, if_pos rfl]
  · rename_i hmem
    rw [h, mem_update_senders_keys] at hmem
    omega

theorem load_unwanted_list_synced (u : List (List Char)) (st : ReaderState)
    (h : st.senders_df = update_senders st.df) :
    (load_unwanted_list u st).senders_df = update_senders (load_unwanted_list u st).df := by
  induction u generalizing st with
  | nil => exact h
  | cons a u ih => exact ih _ (apply_unwanted_synced st h a)

theorem countSender_load_unwanted_le (u : List (List Char)) (st : ReaderState)
    (t : List Char) :
    countSender (load_unwanted_list u st).df t ≤ countSender st.df t := by
  induction u generalizing st with
  | nil => exact le_refl _
  | cons a u ih =>
    exact le_trans (ih (apply_unwanted st a)) (countSender_apply_unwanted_le st a t)

theorem countSender_load_unwanted_zero (u : List (List Char)) (st : ReaderState)
    (h : st.senders_df = update_senders st.df) (s : List Char) (hs : s ∈ u) :
    countSender (load_unwanted_list u st).df s = 0 := by
  induction u generalizing st with
  | nil => cases hs
  | cons a u ih =>
    rcases List.mem_cons.1 hs with h1 | h1
    · subst h1
      have h0 := countSender_apply_unwanted_self st h s
      have hle := countSender_load_unwanted_le u (apply_unwanted st s) s
      simp only [load_unwanted_list, List.foldl_cons] at *
      omega
    · exact ih (apply_unwanted st a) (apply_unwanted_synced st h a) h1

theorem apply_unwanted_of_zero (st : ReaderState)
    (h : st.senders_df = update_senders st.df) (s : List Char)
    (h0 : countSender st.df s = 0) : apply_unwanted st s = st := by
  unfold apply_unwanted
  rw [if_neg]
  rw [h, mem_update_senders_keys]
  omega

theorem load_unwanted_list_of_zero (u : List (List Char)) (st : ReaderState)
    (h : st.senders_df = update_senders st.df)
    (h0 : ∀ s ∈ u, countSender st.df s = 0) : load_unwanted_list u st = st := by
  induction u with
  | nil => rfl
  | cons a u ih =>
    have ha := apply_unwanted_of_zero st h a (h0 a (by simp))
    simp only [load_unwanted_list, List.foldl_cons, ha]
    exact ih (fun s hs => h0 s (by simp [hs]))

/-- C4: applying the unwanted list is idempotent.  For every record table,
its derived frequency view (the class keeps `senders_df = update_senders df`
at all times) and every unwanted list, a second `load_unwanted_list` run
leaves both the table and the view exactly as the first run left them. -/
theorem load_unwanted_list_idempotent (st : ReaderState) (u : List (List Char))
    (h : st.senders_df = update_senders st.df) :
    load_unwanted_list u (load_unwanted_list u st) = load_unwanted_list u st :=
  load_unwanted_list_of_zero u _ (load_unwanted_list_synced u st h)
    (fun s hs => countSender_load_unwanted_zero u st h s hs)

/-- C4 witness: the idempotence theorem applied to a one-row table whose only
sender is on the unwanted list. -/
theorem load_unwanted_list_idempotent_witness :
    load_unwanted_list ["spam".data]
        (load_unwanted_list ["spam".data]
          ⟨[⟨"spam".data, "hi".data, 5⟩], update_senders [⟨"spam".data, "hi".data, 5⟩]⟩) =
      load_unwanted_list ["spam".data]
        ⟨[⟨"spam".data, "hi".data, 5⟩], update_senders [⟨"spam".data, "hi".data, 5⟩]⟩ :=
  load_unwanted_list_idempotent _ _ rfl

/-- Errors a reader operation may raise to its caller. -/
inductive PyErr where
  | noPstFile
  | noCsvFile
  | invalidFileType
  | pandas (msg : List Char)
deriving DecidableEq

/-- `sorted(data, key=lambda x: x['Date'], reverse=True)` in
`PSTMailReader.__load_pst`: stable sort, newest date first. -/
def sortByDateDesc (l : List MailRecord) : List MailRecord :=
  l.mergeSort (fun a b => decide (b.date ≤ a.date))

/-- `PSTMailReader.__load_pst`, parameterized by the aspose extraction
oracle `extract` (the third-party `PersonalStorage` parsing, inbox-folder
lookup and message extraction).  The `if not self.file` check raises before
the `try` block; inside it any failure is caught, a message printed and an
empty table returned; on success, messages whose sender is on the unwanted
list are skipped and the rest sorted newest-first.  The second component
collects the printed error messages. -/
def load_pst (extract : List Nat → Except (List Char) (List MailRecord))
    (unwanted_list : List (List Char)) (file : Option (List Nat)) :
    (Except PyErr (List MailRecord)) × List (List Char) :=
  match file with
  | none => (.error .noPstFile, [])
  | some f =>
    match extract f with
    | .ok msgs =>
        (.ok (sortByDateDesc (msgs.filter (fun m => m.sender ∉ unwanted_list))), [])
    | .error e => (.ok [], ["Error trying to load the pst file: ".data ++ e])

/-- The Python file object handed to `CSVMailReader`: a `StringIO`, some
other object with a `read` attribute, or anything else. -/
inductive PyFile where
  | stringIo (content : List Char)
  | withRead (content : List Char)
  | other
deriving DecidableEq

/-- `CSVMailReader.__load_csv`, parameterized by the pandas `read_csv`
oracle.  A missing file raises `ValueError` before the `try`; inside it a
non-file-like argument raises `ValueError("Invalid file type")` and any
parse failure is caught, reported with `print`, and then re-raised. -/
def load_csv (read_csv : List Char → Except (List Char) (List MailRecord))
    (file : Option PyFile) :
    (Except PyErr (List MailRecord)) × List (List Char) :=
  match file with
  | none => (.error .noCsvFile, [])
  | some (.stringIo c) | some (.withRead c) =>
    match read_csv c with
    | .ok df => (.ok df, [])
    | .error e => (.error (.pandas e), ["Error loading CSV file: ".data ++ e])
  | some .other =>
      (.error .invalidFileType, ["Error loading CSV file: Invalid file type".data])

/-- `CSVMailReader.__init__`: load the table (propagating any load error),
read the unwanted list, and compute the frequency view with
`update_senders`.  The unwanted list is stored but not applied to the
table. -/
def csv_init (read_csv : List Char → Except (List Char) (List MailRecord))
    (file : Option PyFile) (unwanted_list : List (List Char)) :
    Except PyErr ReaderState :=
  match (load_csv read_csv file).1 with
  | .ok df => .ok ⟨df, update_senders df⟩
  | .error e => .error e

/-- C10: every successfully loaded PST record table is sorted by the `Date`
field in non-increasing (newest-first) order. -/
theorem load_pst_sorted (extract : List Nat → Except (List Char) (List MailRecord))
    (unwanted_list : List (List Char)) (file : Option (List Nat))
    (df : List MailRecord) (h : (load_pst extract unwanted_list file).1 = .ok df) :
    df.Pairwise (fun a b => b.date ≤ a.date) := by
  match file with
  | none => exact absurd h (by simp [load_pst])
  | some f =>
    cases hx : extract f with
    | ok msgs =>
      simp only [load_pst, hx, Except.ok.injEq] at h
      subst h
      have hs := @List.sorted_mergeSort MailRecord
        (fun a b : MailRecord => decide (b.date ≤ a.date))
        (fun a b c hab hbc => by
          simp only [decide_eq_true_eq] at *
          omega)
        (fun a b => by
          simp only [Bool.or_eq_true, decide_eq_true_eq]
          omega)
        (msgs.filter (fun m => m.sender ∉ unwanted_list))
      exact hs.imp (fun hab => by simpa using hab)
    | error e =>
      simp only [load_pst, hx, Except.ok.injEq] at h
      subst h
      exact List.Pairwise.nil

/-- C10 witness: the sortedness theorem applied to a concrete one-message
mailbox. -/
theorem load_pst_sorted_witness :
    ([⟨"a".data, "s".data, 7⟩] : List MailRecord).Pairwise (fun a b => b.date ≤ a.date) :=
  load_pst_sorted (fun _ => .ok [⟨"a".data, "s".data, 7⟩]) [] (some []) _
    (by simp [load_pst, sortByDateDesc])

/-- C6 counterexample: with `"spam"` on the persisted unwanted list, the CSV
read path (`CSVMailReader.__init__`) still returns a table containing a row
whose sender is `"spam"` — unlike the PST path, it performs no
auto-exclusion. -/
theorem csv_init_keeps_unwanted :
    "spam".data ∈ ["spam".data] ∧
    csv_init (fun _ => .ok [⟨"spam".data, "hi".data, 5⟩])
        (some (.stringIo "raw".data)) ["spam".data] =
      .ok ⟨[⟨"spam".data, "hi".data, 5⟩], update_senders [⟨"spam".data, "hi".data, 5⟩]⟩ ∧
    (⟨"spam".data, "hi".data, 5⟩ : MailRecord).sender = "spam".data :=
  ⟨by simp, rfl, rfl⟩

/-- C6 (amended): only the PST read path auto-excludes unwanted senders —
every record of a table returned by `__load_pst` has a sender that is not on
the persisted unwanted list; the CSV read path keeps such rows until the
unwanted list is applied explicitly. -/
theorem load_pst_excludes_unwanted
    (extract : List Nat → Except (List Char) (List MailRecord))
    (unwanted_list : List (List Char)) (file : Option (List Nat))
    (df : List MailRecord) (h : (load_pst extract unwanted_list file).1 = .ok df)
    (s : List Char) (hs : s ∈ unwanted_list) :
    ∀ r ∈ df, r.sender ≠ s := by
  match file with
  | none => exact absurd h (by simp [load_pst])
  | some f =>
    cases hx : extract f with
    | ok msgs =>
      simp only [load_pst, hx, Except.ok.injEq] at h
      subst h
      intro r hr
      rw [sortByDateDesc, List.mem_mergeSort] at hr
      have hp := List.of_mem_filter hr
      simp only [decide_not, Bool.not_eq_eq_eq_not, Bool.not_true, decide_eq_false_iff_not] at hp
      intro hcon
      exact hp (hcon ▸ hs)
    | error e =>
      simp only [load_pst, hx, Except.ok.injEq] at h
      subst h
      intro r hr
      exact absurd hr (List.not_mem_nil r)

/-- C6 witness: the PST-path exclusion theorem applied to a concrete
two-message mailbox with one unwanted sender, evaluated at the surviving
record. -/
theorem load_pst_excludes_unwanted_witness :
    (⟨"ok".data, "s".data, 3⟩ : MailRecord).sender ≠ "spam".data :=
  load_pst_excludes_unwanted
    (fun _ => .ok [⟨"spam".data, "s".data, 5⟩, ⟨"ok".data, "s".data, 3⟩])
    ["spam".data] (some []) [⟨"ok".data, "s".data, 3⟩]
    (by simp [load_pst, sortByDateDesc]) "spam".data (by simp)
    ⟨"ok".data, "s".data, 3⟩ (by simp)

theorem load_pst_returns_ok
    (extract : List Nat → Except (List Char) (List MailRecord))
    (unwanted_list : List (List Char)) (f : List Nat) :
    ∃ df, (load_pst extract unwanted_list (some f)).1 = .ok df := by
  cases hx : extract f with
  | ok msgs =>
    exact ⟨sortByDateDesc (msgs.filter (fun m => m.sender ∉ unwanted_list)),
      by simp [load_pst, hx]⟩
  | error e => exact ⟨[], by simp [load_pst, hx]⟩

/-- C8 counterexample: a failing CSV parse inside `__load_csv` is printed
but then re-raised (`except ... raise`): the reader returns with the
exception propagated to the caller, not normally. -/
theorem load_csv_propagates :
    load_csv (fun _ => .error "bad bytes".data) (some (.stringIo "x".data)) =
      (.error (.pandas "bad bytes".data),
        ["Error loading CSV file: ".data ++ "bad bytes".data]) := rfl

/-- C8 (amended): the PST reader catches every failure inside its `try`
block — with any file object it returns normally, and on an extraction
failure it returns the empty table with the error printed; the CSV reader,
however, prints the parse-failure message and then re-raises it, so CSV read
failures propagate to the caller. -/
theorem reader_error_handling
    (extract : List Nat → Except (List Char) (List MailRecord))
    (unwanted_list : List (List Char)) (f : List Nat)
    (read_csv : List Char → Except (List Char) (List MailRecord))
    (c e : List Char) (hfail : read_csv c = .error e) :
    (∃ df, (load_pst extract unwanted_list (some f)).1 = .ok df) ∧
    (∀ e', extract f = .error e' →
      load_pst extract unwanted_list (some f) =
        (.ok [], ["Error trying to load the pst file: ".data ++ e'])) ∧
    load_csv read_csv (some (.stringIo c)) =
      (.error (.pandas e), ["Error loading CSV file: ".data ++ e]) := by
  refine ⟨load_pst_returns_ok extract unwanted_list f, ?_, ?_⟩
  · intro e' hx
    simp [load_pst, hx]
  · simp [load_csv, hfail]

/-- C8 witness: the amended error-handling theorem at a concrete failing
extraction oracle and a concrete failing CSV parse. -/
theorem reader_error_handling_witness :
    (∃ df, (load_pst (fun _ => .error "boom".data) [] (some [])).1 = .ok df) ∧
    (∀ e', (fun _ : List Nat => (Except.error "boom".data :
        Except (List Char) (List MailRecord))) [] = .error e' →
      load_pst (fun _ => .error "boom".data) [] (some []) =
        (.ok [], ["Error trying to load the pst file: ".data ++ e'])) ∧
    load_csv (fun _ => .error "bad".data) (some (.stringIo "x".data)) =
      (.error (.pandas "bad".data), ["Error loading CSV file: ".data ++ "bad".data]) :=
  reader_error_handling (fun _ => .error "boom".data) [] []
    (fun _ => .error "bad".data) "x".data "bad".data rfl

/-- Decimal evaluation of a digit string with accumulator `a`; inverse of
`Nat.toDigits 10` (the pure kernel of Python's `str(count)`). -/
def digitsVal (a : Nat) (cs : List Char) : Nat :=
  cs.foldl (fun acc c => 10 * acc + (c.toNat - 48)) a

theorem digitChar_val (k : Nat) (hk : k < 10) : (Nat.digitChar k).toNat - 48 = k := by
  interval_cases k <;> rfl

theorem digitsVal_toDigitsCore (fuel : Nat) :
    ∀ n, n < fuel → ∀ ds : List Char,
      digitsVal 0 (Nat.toDigitsCore 10 fuel n ds) = digitsVal n ds := by
  induction fuel with
  | zero => omega
  | succ f ih =>
    intro n hn ds
    rw [Nat.toDigitsCore]
    by_cases h10 : n / 10 = 0
    · rw [if_pos h10]
      show digitsVal (10 * 0 + ((Nat.digitChar (n % 10)).toNat - 48)) ds = digitsVal n ds
      rw [digitChar_val (n % 10) (Nat.mod_lt n (by omega))]
      congr 1
      omega
    · rw [if_neg h10]
      have hlt : n / 10 < f := by
        have hpos : 0 < n := by
          rcases Nat.eq_zero_or_pos n with h0 | h0
          · exact absurd (by rw [h0]) h10
          · exact h0
        have := Nat.div_lt_self hpos (by omega : 1 < 10)
        omega
      rw [ih (n / 10) hlt (Nat.digitChar (n % 10) :: ds)]
      show digitsVal (10 * (n / 10) + ((Nat.digitChar (n % 10)).toNat - 48)) ds = digitsVal n ds
      rw [digitChar_val (n % 10) (Nat.mod_lt n (by omega))]
      congr 1
      omega

theorem digitsVal_toDigits (n : Nat) : digitsVal 0 (Nat.toDigits 10 n) = n :=
  digitsVal_toDigitsCore (n + 1) n (Nat.lt_succ_self n) []

theorem toDigits_inj (m n : Nat) (h : Nat.toDigits 10 m = Nat.toDigits 10 n) : m = n := by
  have hm := digitsVal_toDigits m
  rw [h, digitsVal_toDigits] at hm
  omega

theorem toDigitsCore_length_le (fuel : Nat) :
    ∀ n, ∀ ds : List Char, ds.length ≤ (Nat.toDigitsCore 10 fuel n ds).length := by
  induction fuel with
  | zero =>
    intro n ds
    rw [Nat.toDigitsCore]
  | succ f ih =>
    intro n ds
    rw [Nat.toDigitsCore]
    by_cases h10 : n / 10 = 0
    · rw [if_pos h10]
      simp
    · rw [if_neg h10]
      calc ds.length ≤ (Nat.digitChar (n % 10) :: ds).length := by simp
        _ ≤ _ := ih (n / 10) (Nat.digitChar (n % 10) :: ds)

theorem toDigits_length_pos (n : Nat) : 0 < (Nat.toDigits 10 n).length := by
  show 0 < (Nat.toDigitsCore 10 (n + 1) n []).length
  rw [Nat.toDigitsCore]
  by_cases h10 : n / 10 = 0
  · rw [if_pos h10]
    simp
  · rw [if_neg h10]
    calc 0 < (Nat.digitChar (n % 10) :: ([] : List Char)).length := by simp
      _ ≤ _ := toDigitsCore_length_le n (n / 10) [Nat.digitChar (n % 10)]

/-- The candidate output names of `CSVMailReader.export_changes` when no
output name is supplied: `f"{base}_modified{ext}"` first, then
`f"{base}_modified({count}){ext}"` for `count = 1, 2, …` (with
`Nat.toDigits 10`, the pure form of `str(count)`). -/
def modName (base ext : List Char) : Nat → List Char
  | 0 => base ++ "_modified".data ++ ext
  | n + 1 => base ++ "_modified(".data ++ Nat.toDigits 10 (n + 1) ++ ")".data ++ ext

/-- The `while os.path.exists(output_file)` loop of `export_changes`,
starting from candidate `n`.  Python's loop needs no fuel; the model runs it
on `fs.length + 1` candidates, which `modName_taken_le` shows is always
enough to hit a fresh one. -/
def autoNameGo (base ext : List Char) (fs : List (List Char)) : Nat → Nat → List Char
  | n, 0 => modName base ext n
  | n, fuel + 1 =>
    if modName base ext n ∈ fs then autoNameGo base ext fs (n + 1) fuel
    else modName base ext n

/-- The auto-generated export path: the first candidate name that does not
exist. -/
def autoName (base ext : List Char) (fs : List (List Char)) : List Char :=
  autoNameGo base ext fs 0 (fs.length + 1)

/-- The falsy-`output_file` branch of `export_changes`: it evaluates
`os.path.splitext(self.file_path)` first.  `CSVMailReader.__init__` stores
the file object in `self.file` and no code of the class ever assigns
`self.file_path`, so the attribute is modelled as an `Option` that is `none`
on every instance the class constructs: the lookup then raises
`AttributeError` before any candidate name is computed or any file written.
Were the attribute present, the branch runs the `while os.path.exists` loop
from `base_modified.ext` onward (`splitext` is the `os.path` library
routine, an oracle parameter). -/
def export_auto (splitext : List Char → (List Char) × (List Char))
    (file_path : Option (List Char)) (fs : List (List Char)) :
    Except (List Char) (List Char) :=
  match file_path with
  | none => .error "CSVMailReader object has no attribute file_path".data
  | some p => .ok (autoName (splitext p).1 (splitext p).2 fs)

/-- `CSVMailReader.export_changes`: the path written by `df.to_csv`, or the
uncaught exception.  A falsy `output_file` (`None` or the empty string from
a blank prompt) takes the auto-naming branch `export_auto` — which on every
reachable instance (`file_path = none`) raises `AttributeError`; any other
explicit name is written as-is, existing or not. -/
def export_changes (splitext : List Char → (List Char) × (List Char))
    (file_path : Option (List Char)) (fs : List (List Char))
    (output_file : Option (List Char)) : Except (List Char) (List Char) :=
  match output_file with
  | none => export_auto splitext file_path fs
  | some name =>
    if name = [] then export_auto splitext file_path fs else .ok name

theorem modName_inj (base ext : List Char) : Function.Injective (modName base ext) := by
  intro m n h
  match m, n with
  | 0, 0 => rfl
  | 0, k + 1 =>
    exfalso
    have hlen := congrArg List.length h
    simp only [modName, List.length_append] at hlen
    have h9 : (['_', 'm', 'o', 'd', 'i', 'f', 'i', 'e', 'd'] : List Char).length = 9 := rfl
    have h10 : (['_', 'm', 'o', 'd', 'i', 'f', 'i', 'e', 'd', '('] : List Char).length = 10 := rfl
    have h1 : ([')'] : List Char).length = 1 := rfl
    have hd := toDigits_length_pos (k + 1)
    omega
  | j + 1, 0 =>
    exfalso
    have hlen := congrArg List.length h
    simp only [modName, List.length_append] at hlen
    have h9 : (['_', 'm', 'o', 'd', 'i', 'f', 'i', 'e', 'd'] : List Char).length = 9 := rfl
    have h10 : (['_', 'm', 'o', 'd', 'i', 'f', 'i', 'e', 'd', '('] : List Char).length = 10 := rfl
    have h1 : ([')'] : List Char).length = 1 := rfl
    have hd := toDigits_length_pos (j + 1)
    omega
  | j + 1, k + 1 =>
    simp only [modName, List.append_assoc] at h
    have h2 := List.append_cancel_left (List.append_cancel_left h)
    have hlen := congrArg List.length h2
    simp only [List.length_append] at hlen
    have h3 := List.append_inj h2 (by omega)
    have := toDigits_inj (j + 1) (k + 1) h3.1
    omega

theorem modName_taken_le (base ext : List Char) (fs : List (List Char)) (k : Nat)
    (htaken : ∀ i < k, modName base ext i ∈ fs) : k ≤ fs.length := by
  have hsub : ((List.range k).map (modName base ext)).toFinset ⊆ fs.toFinset := by
    intro x hx
    rw [List.mem_toFinset] at hx ⊢
    obtain ⟨i, hi, hxi⟩ := List.mem_map.1 hx
    rw [List.mem_range] at hi
    exact hxi ▸ htaken i hi
  have hcard1 : ((List.range k).map (modName base ext)).toFinset.card = k := by
    rw [List.toFinset_card_of_nodup ((List.nodup_range k).map (modName_inj base ext))]
    simp
  have hcard2 := List.toFinset_card_le fs
  have hle := Finset.card_le_card hsub
  omega

theorem exists_fresh_modName (base ext : List Char) (fs : List (List Char)) :
    ∃ k, k ≤ fs.length ∧ modName base ext k ∉ fs := by
  by_contra hcon
  push_neg at hcon
  have htaken : ∀ i < fs.length + 1, modName base ext i ∈ fs :=
    fun i hi => hcon i (by omega)
  have := modName_taken_le base ext fs (fs.length + 1) htaken
  omega

theorem autoNameGo_eq (base ext : List Char) (fs : List (List Char)) :
    ∀ fuel start k, start ≤ k → k < start + fuel →
      (∀ i, start ≤ i → i < k → modName base ext i ∈ fs) →
      modName base ext k ∉ fs →
      autoNameGo base ext fs start fuel = modName base ext k := by
  intro fuel
  induction fuel with
  | zero => intro start k h1 h2 _ _; omega
  | succ f ih =>
    intro start k h1 h2 htaken hfree
    rw [autoNameGo]
    by_cases hmem : modName base ext start ∈ fs
    · rw [if_pos hmem]
      have hks : k ≠ start := fun heq => hfree (heq ▸ hmem)
      exact ih (start + 1) k (by omega) (by omega)
        (fun i hi1 hi2 => htaken i (by omega) hi2) hfree
    · rw [if_neg hmem]
      have hk : k = start := by
        by_contra hne
        exact hmem (htaken start (le_refl _) (by omega))
      rw [hk]

theorem autoName_fresh (base ext : List Char) (fs : List (List Char)) :
    autoName base ext fs ∉ fs := by
  obtain ⟨k0, hk0, hfree0⟩ := exists_fresh_modName base ext fs
  have hex : ∃ k, modName base ext k ∉ fs := ⟨k0, hfree0⟩
  have hfree : modName base ext (Nat.find hex) ∉ fs := Nat.find_spec hex
  have hmin : ∀ i < Nat.find hex, modName base ext i ∈ fs := by
    intro i hi
    have := Nat.find_min hex hi
    rwa [not_not] at this
  have hkle : Nat.find hex ≤ fs.length := le_trans (Nat.find_min' hex hfree0) hk0
  rw [autoName, autoNameGo_eq base ext fs (fs.length + 1) 0 (Nat.find hex)
    (Nat.zero_le _) (by omega) (fun i _ h2 => hmin i h2) hfree]
  exact hfree

/-- C3 counterexample: on a reachable instance (`file_path` absent, as
`__init__` leaves it), `export_changes` with an explicit output name that
already exists writes to that very path — refuting "for every filesystem
state, the output path it writes to did not exist beforehand" — and with no
output name it raises `AttributeError` on `self.file_path` instead of
producing any `_modified` name, refuting "repeated exports produce the
auto-generated names". -/
theorem export_changes_overwrites :
    (export_changes (fun p => (p.take 3, p.drop 3)) none ["out.csv".data]
        (some "out.csv".data) = .ok "out.csv".data ∧
      "out.csv".data ∈ ["out.csv".data]) ∧
    export_changes (fun p => (p.take 3, p.drop 3)) none ["out.csv".data] none =
      .error "CSVMailReader object has no attribute file_path".data :=
  ⟨⟨rfl, by simp⟩, rfl⟩

/-- C3 (amended): `export_changes` guarantees no freshness for explicit
names — a non-empty `output_file` is written as-is even when the path
already exists.  With a falsy `output_file` (`None` or empty) the
auto-naming branch first reads `self.file_path`, an attribute no code of
the class ever assigns, so on every instance the class constructs it raises
`AttributeError` before computing a name or writing anything; only on an
instance where that attribute were supplied would it write the first name
of the sequence `base_modified.ext`, `base_modified(1).ext`,
`base_modified(2).ext`, … not yet present — a path that never exists
beforehand. -/
theorem export_changes_spec (splitext : List Char → (List Char) × (List Char))
    (fs : List (List Char)) :
    (∀ file_path name, name ≠ [] →
      export_changes splitext file_path fs (some name) = .ok name) ∧
    (∀ output_file, output_file = none ∨ output_file = some ([] : List Char) →
      export_changes splitext none fs output_file =
        .error "CSVMailReader object has no attribute file_path".data) ∧
    (∀ p, export_changes splitext (some p) fs none =
        .ok (autoName (splitext p).1 (splitext p).2 fs) ∧
      autoName (splitext p).1 (splitext p).2 fs ∉ fs ∧
      ∀ k, (∀ i < k, modName (splitext p).1 (splitext p).2 i ∈ fs) →
        modName (splitext p).1 (splitext p).2 k ∉ fs →
        autoName (splitext p).1 (splitext p).2 fs =
          modName (splitext p).1 (splitext p).2 k) := by
  refine ⟨?_, ?_, ?_⟩
  · intro file_path name hname
    show (if name = [] then export_auto splitext file_path fs else .ok name) = .ok name
    rw [if_neg hname]
  · rintro _ (rfl | rfl)
    · rfl
    · rfl
  · intro p
    refine ⟨rfl, autoName_fresh (splitext p).1 (splitext p).2 fs, ?_⟩
    intro k htaken hfree
    have hk := modName_taken_le (splitext p).1 (splitext p).2 fs k htaken
    exact autoNameGo_eq (splitext p).1 (splitext p).2 fs (fs.length + 1) 0 k
      (Nat.zero_le _) (by omega) (fun i _ h2 => htaken i h2) hfree

/-- C3 witness: the export spec at a concrete `splitext` oracle and a
filesystem already containing `m_modified.csv`; on the reachable
attribute-less instance exporting with no name raises, and on a
hypothetical instance with the attribute present the auto name is
`m_modified(1).csv` (the `k = 1` hypotheses discharged concretely). -/
theorem export_changes_spec_witness :
    ((∀ file_path name, name ≠ [] →
        export_changes (fun _ => ("m".data, ".csv".data)) file_path
          ["m_modified.csv".data] (some name) = .ok name) ∧
      (∀ output_file, output_file = none ∨ output_file = some ([] : List Char) →
        export_changes (fun _ => ("m".data, ".csv".data)) none
          ["m_modified.csv".data] output_file =
          .error "CSVMailReader object has no attribute file_path".data) ∧
      (∀ p, export_changes (fun _ => ("m".data, ".csv".data)) (some p)
          ["m_modified.csv".data] none =
          .ok (autoName "m".data ".csv".data ["m_modified.csv".data]) ∧
        autoName "m".data ".csv".data ["m_modified.csv".data] ∉
          ["m_modified.csv".data] ∧
        ∀ k, (∀ i < k, modName "m".data ".csv".data i ∈ ["m_modified.csv".data]) →
          modName "m".data ".csv".data k ∉ ["m_modified.csv".data] →
          autoName "m".data ".csv".data ["m_modified.csv".data] =
            modName "m".data ".csv".data k)) ∧
    autoName "m".data ".csv".data ["m_modified.csv".data] =
      modName "m".data ".csv".data 1 :=
  ⟨export_changes_spec (fun _ => ("m".data, ".csv".data)) ["m_modified.csv".data],
    ((export_changes_spec (fun _ => ("m".data, ".csv".data))
        ["m_modified.csv".data]).2.2 "m.csv".data).2.2 1
      (by intro i hi; interval_cases i; · exact by decide)
      (by decide)⟩

/-- A row of the dashboard's stored table after
`pd.to_datetime(df["Date"], errors='coerce')`: the `Date` entry either
parsed to a timestamp (minutes since the epoch) or became `NaT` (`none`). -/
structure WebRow where
  sender : List Char
  subject : List Char
  date : Option Nat
deriving DecidableEq

/-- The resampling granularities of the dashboard dropdown
(`'M'`, `'W'`, `'D'`). -/
inductive Period where
  | M
  | W
  | D
deriving DecidableEq

/-- Calendar month index (`12 * year + month`) of a day count since
1970-01-01, by the standard civil-calendar conversion. -/
def monthIndex (z : Nat) : Nat :=
  let z' := z + 719468
  let era := z' / 146097
  let doe := z' % 146097
  let yoe := (doe - doe / 1460 + doe / 36524 - doe / 146096) / 365
  let doy := doe - (365 * yoe + yoe / 4 - yoe / 100)
  let mp := (5 * doy + 2) / 153
  let m := if mp < 10 then mp + 3 else mp - 9
  (if m ≤ 2 then yoe + era * 400 + 1 else yoe + era * 400) * 12 + m

/-- The resample bucket key of a timestamp (in minutes since the epoch)
under each granularity: calendar day, calendar week, calendar month. -/
def bucketOf : Period → Nat → Nat
  | .D, t => t / 1440
  | .W, t => (t / 1440 + 3) / 7
  | .M, t => monthIndex (t / 1440)

/-- `df.set_index("Date").resample(p).size()`: one `(bucket, count)` row for
every consecutive bucket between the earliest and the latest key, counting
the rows that fall in each bucket (gap buckets appear with count 0). -/
def resampleSize (key : Nat → Nat) (dates : List Nat) : List (Nat × Nat) :=
  match dates with
  | [] => []
  | d :: _ =>
    (List.range' ((dates.map key).foldl min (key d))
        ((dates.map key).foldl max (key d) - (dates.map key).foldl min (key d) + 1)).map
      (fun b => (b, (dates.filter (fun t => key t = b)).length))

/-- The grouped series of `update_graphs`: parse dates (`errors='coerce'`),
drop unparsable rows (`dropna`), resample by the selected period and count
each bucket. -/
def df_grouped (p : Period) (rows : List WebRow) : List (Nat × Nat) :=
  resampleSize (bucketOf p) (rows.filterMap WebRow.date)

theorem foldl_min_le_init (l : List Nat) (a : Nat) : l.foldl min a ≤ a := by
  induction l generalizing a with
  | nil => exact le_refl a
  | cons x l ih => exact le_trans (ih (min a x)) (min_le_left a x)

theorem foldl_min_le_mem (l : List Nat) (a x : Nat) (hx : x ∈ l) :
    l.foldl min a ≤ x := by
  induction l generalizing a with
  | nil => cases hx
  | cons y l ih =>
    rcases List.mem_cons.1 hx with h | h
    · subst h
      exact le_trans (foldl_min_le_init l (min a x)) (min_le_right a x)
    · exact ih (min a y) h

theorem le_foldl_max_init (l : List Nat) (a : Nat) : a ≤ l.foldl max a := by
  induction l generalizing a with
  | nil => exact le_refl a
  | cons x l ih => exact le_trans (le_max_left a x) (ih (max a x))

theorem le_foldl_max_mem (l : List Nat) (a x : Nat) (hx : x ∈ l) :
    x ≤ l.foldl max a := by
  induction l generalizing a with
  | nil => cases hx
  | cons y l ih =>
    rcases List.mem_cons.1 hx with h | h
    · subst h
      exact le_trans (le_max_right a x) (le_foldl_max_init l (max a x))
    · exact ih (max a y) h

theorem sum_map_add {α : Type} (L : List α) (f g : α → Nat) :
    (L.map (fun b => f b + g b)).sum = (L.map f).sum + (L.map g).sum := by
  induction L with
  | nil => rfl
  | cons a L ih =>
    simp only [List.map_cons, List.sum_cons, ih]
    omega

theorem sum_map_indicator_zero (L : List Nat) (a : Nat) (ha : a ∉ L) :
    (L.map (fun b => if a = b then 1 else 0)).sum = 0 := by
  induction L with
  | nil => rfl
  | cons x L ih =>
    have hax : a ≠ x := fun h => ha (h ▸ List.mem_cons_self x L)
    simp only [List.map_cons, List.sum_cons, if_neg hax]
    rw [ih (fun h => ha (List.mem_cons_of_mem x h))]

theorem sum_map_indicator (L : List Nat) (a : Nat) (hnd : L.Nodup) (ha : a ∈ L) :
    (L.map (fun b => if a = b then 1 else 0)).sum = 1 := by
  induction L with
  | nil => cases ha
  | cons x L ih =>
    rcases List.mem_cons.1 ha with h | h
    · subst h
      have hz := sum_map_indicator_zero L a (List.nodup_cons.1 hnd).1
      simp [hz]
    · have hax : a ≠ x := fun hc => (List.nodup_cons.1 hnd).1 (hc ▸ h)
      simp only [List.map_cons, List.sum_cons, if_neg hax]
      rw [ih (List.nodup_cons.1 hnd).2 h]

theorem sum_counts_eq_length {α : Type} (key : α → Nat) (l : List α) (lo n : Nat)
    (hmem : ∀ x ∈ l, lo ≤ key x ∧ key x < lo + n) :
    ((List.range' lo n).map
      (fun b => (l.filter (fun t => key t = b)).length)).sum = l.length := by
  induction l with
  | nil =>
    have hz : ∀ L : List Nat,
        (L.map (fun b =>
          (List.filter (fun t => decide (key t = b)) ([] : List α)).length)).sum = 0 := by
      intro L
      induction L with
      | nil => rfl
      | cons a L ih => simpa using ih
    simpa using hz (List.range' lo n)
  | cons x l ih =>
    have hx := hmem x (List.mem_cons_self x l)
    have hrest : ∀ y ∈ l, lo ≤ key y ∧ key y < lo + n :=
      fun y hy => hmem y (List.mem_cons_of_mem x hy)
    have hmap : (List.range' lo n).map
        (fun b => (List.filter (fun t => key t = b) (x :: l)).length)
        = (List.range' lo n).map
          (fun b => (if key x = b then 1 else 0)
            + (List.filter (fun t => key t = b) l).length) := by
      apply List.map_congr_left
      intro b _
      rw [List.filter_cons]
      by_cases h : key x = b
      · simp [h, Nat.add_comm]
      · simp [h]
    rw [hmap, sum_map_add, ih hrest,
      sum_map_indicator (List.range' lo n) (key x) (List.nodup_range' lo n)
        (List.mem_range'_1.2 ⟨hx.1, hx.2⟩)]
    simp [Nat.add_comm]

/-- C5: for every stored record set and every granularity, the per-bucket
counts of the aggregation step sum to the number of records whose `Date`
field parsed to a valid timestamp — rows with unparsable dates are dropped
before bucketing and never counted. -/
theorem df_grouped_counts_sum (p : Period) (rows : List WebRow) :
    ((df_grouped p rows).map Prod.snd).sum = (rows.filterMap WebRow.date).length := by
  unfold df_grouped
  cases hd : rows.filterMap WebRow.date with
  | nil => rfl
  | cons d tl =>
    unfold resampleSize
    rw [List.map_map]
    have hcomp : (Prod.snd ∘ fun b =>
        (b, (List.filter (fun t => decide (bucketOf p t = b)) (d :: tl)).length))
        = fun b => (List.filter (fun t => decide (bucketOf p t = b)) (d :: tl)).length :=
      rfl
    rw [hcomp]
    apply sum_counts_eq_length
    intro x hxmem
    have hkmem : bucketOf p x ∈ (d :: tl).map (bucketOf p) :=
      List.mem_map_of_mem (bucketOf p) hxmem
    have hlo := foldl_min_le_mem ((d :: tl).map (bucketOf p)) (bucketOf p d)
      (bucketOf p x) hkmem
    have hhi := le_foldl_max_mem ((d :: tl).map (bucketOf p)) (bucketOf p d)
      (bucketOf p x) hkmem
    have hdm : bucketOf p d ∈ (d :: tl).map (bucketOf p) :=
      List.mem_map_of_mem (bucketOf p) (List.mem_cons_self d tl)
    have hlohi := le_trans hlo hhi
    omega

/-- `df_grouped["Count"].max()`: the largest bucket count of the grouped
series. -/
def max_count (g : List (Nat × Nat)) : Nat :=
  (g.map Prod.snd).foldl max 0

/-- The y-axis upper limit of `update_graphs`:
`max(max_count + 10, max(20, min(100, max_count * 1.2)))`, over exact
rationals (`1.2` is exact in `ℚ`; the source's float arithmetic agrees with
the exact value at every comparison in range). -/
def yaxis_upper_limit (m : Nat) : ℚ :=
  max ((m : ℚ) + 10) (max 20 (min 100 ((m : ℚ) * 1.2)))

/-- C9: for every non-empty grouped count series with maximum bucket count
`m`, the y-axis upper limit equals
`max(m + 10, max(20, min(100, m * 1.2)))`, and in particular is at least
`20` and at least `m + 10`. -/
theorem yaxis_upper_limit_spec (p : Period) (rows : List WebRow)
    (hne : df_grouped p rows ≠ []) :
    yaxis_upper_limit (max_count (df_grouped p rows)) =
      max ((max_count (df_grouped p rows) : ℚ) + 10)
        (max 20 (min 100 ((max_count (df_grouped p rows) : ℚ) * 1.2))) ∧
    (20 : ℚ) ≤ yaxis_upper_limit (max_count (df_grouped p rows)) ∧
    (max_count (df_grouped p rows) : ℚ) + 10 ≤
      yaxis_upper_limit (max_count (df_grouped p rows)) :=
  ⟨rfl,
   le_trans (le_max_left 20 (min 100 ((max_count (df_grouped p rows) : ℚ) * 1.2)))
     (le_max_right _ _),
   le_max_left _ _⟩

/-- C9 witness: the y-axis bound theorem on the concrete one-row table with
a parsable date, whose daily grouped series is the single bucket `(0, 1)`. -/
theorem yaxis_upper_limit_spec_witness :
    yaxis_upper_limit (max_count (df_grouped .D [⟨"a".data, "s".data, some 0⟩])) =
      max ((max_count (df_grouped .D [⟨"a".data, "s".data, some 0⟩]) : ℚ) + 10)
        (max 20 (min 100
          ((max_count (df_grouped .D [⟨"a".data, "s".data, some 0⟩]) : ℚ) * 1.2))) ∧
    (20 : ℚ) ≤ yaxis_upper_limit (max_count (df_grouped .D [⟨"a".data, "s".data, some 0⟩])) ∧
    (max_count (df_grouped .D [⟨"a".data, "s".data, some 0⟩]) : ℚ) + 10 ≤
      yaxis_upper_limit (max_count (df_grouped .D [⟨"a".data, "s".data, some 0⟩])) :=
  yaxis_upper_limit_spec .D [⟨"a".data, "s".data, some 0⟩] (by decide)

/-- The success status line of `update_output`:
`f'File "{filename}" uploaded successfully!'`. -/
def successMsg (filename : List Char) : List Char :=
  "File \"".data ++ filename ++ "\" uploaded successfully!".data

/-- The failure status line of `update_output`:
`f'File {filename} failed to upload: {e}'`. -/
def failMsg (filename e : List Char) : List Char :=
  "File ".data ++ filename ++ " failed to upload: ".data ++ e

/-- `parse_contents` of the dashboard: only a filename containing `'csv'`
(case-insensitively) is parsed as CSV; any other filename yields the
unsupported-format message, a parse failure its error message.  (Dead code
in the dashboard: `update_output` never calls it.) -/
def parse_contents (read_csv : List Char → Except (List Char) (List MailRecord))
    (decoded filename : List Char) : Except (List Char) (List MailRecord) :=
  if "csv".data <:+: lowerStr filename then
    match read_csv decoded with
    | .ok df => .ok df
    | .error e => .error ("There was an error processing this file: ".data ++ e)
  else
    .error "Unsupported file format. Please upload a CSV file.".data

/-- The message text of each modelled Python exception. -/
def errText : PyErr → List Char
  | .noPstFile => "No PST file provided".data
  | .noCsvFile => "No file provided".data
  | .invalidFileType => "Invalid file type".data
  | .pandas e => e

/-- The tail of `update_output`: store the table loaded by `PSTMailReader`
(and its JSON) with a success message, or — if constructing the reader
raised — report the failure with nothing stored. -/
def store_result (filename : List Char) (res : Except PyErr (List MailRecord)) :
    (List Char) × Option (List MailRecord) :=
  match res with
  | .ok df => (successMsg filename, some df)
  | .error e => (failMsg filename (errText e), none)

/-- The `update_output` upload callback: `None` contents raise
`PreventUpdate` (`none`); otherwise the contents must split at `','` into
exactly two parts, the payload is base64-decoded (the oracle `b64decode`
returns `none` on undecodable input) and handed to `PSTMailReader`; every
failure on the way is caught and reported with no table stored, and success
stores the (possibly empty) PST table — the filename is never inspected. -/
def update_output (b64decode : List Char → Option (List Nat))
    (extract : List Nat → Except (List Char) (List MailRecord))
    (unwanted_list : List (List Char))
    (file_contents : Option (List Char)) (filename : List Char) :
    Option ((List Char) × Option (List MailRecord)) :=
  match file_contents with
  | none => none
  | some c =>
    match c.splitOn ',' with
    | [_, content_string] =>
      match b64decode content_string with
      | some decoded =>
          some (store_result filename (load_pst extract unwanted_list (some decoded)).1)
      | none => some (failMsg filename "Invalid base64-encoded string".data, none)
    | _ => some (failMsg filename "not enough values to unpack".data, none)

/-- C7 counterexample: an upload named `"mail.pst"` — whose filename does
not contain `'csv'` — is accepted by the upload callback, which parses it as
PST and stores the resulting record table with a success message;
`parse_contents`, which would have rejected it, is never invoked in the web
path. -/
theorem update_output_stores_non_csv :
    (¬ "csv".data <:+: lowerStr "mail.pst".data) ∧
    update_output (fun s => some (s.map Char.toNat))
        (fun _ => .ok [⟨"a".data, "s".data, 7⟩]) []
        (some "data:x,payload".data) "mail.pst".data =
      some (successMsg "mail.pst".data, some [⟨"a".data, "s".data, 7⟩]) := by
  constructor
  · decide
  · have hload : (load_pst (fun _ : List Nat => (Except.ok
        [(⟨"a".data, "s".data, 7⟩ : MailRecord)] : Except (List Char) (List MailRecord))) []
        (some ("payload".data.map Char.toNat))).1 =
        .ok [⟨"a".data, "s".data, 7⟩] := by
      simp [load_pst, sortByDateDesc]
    have h1 : update_output (fun s => some (s.map Char.toNat))
        (fun _ => .ok [⟨"a".data, "s".data, 7⟩]) []
        (some "data:x,payload".data) "mail.pst".data =
        some (store_result "mail.pst".data
          (load_pst (fun _ => .ok [⟨"a".data, "s".data, 7⟩]) []
            (some ("payload".data.map Char.toNat))).1) := rfl
    rw [h1, hload]
    rfl

/-- C7 (amended): `parse_contents` answers the unsupported-format message
for every filename not containing `'csv'` (case-insensitively), but the
upload callback never invokes it: for every upload whose contents split at
`','` into two parts with a decodable payload, `update_output` stores a
PST-parsed record table and reports success, whatever the filename. -/
theorem parse_contents_vs_update_output
    (read_csv : List Char → Except (List Char) (List MailRecord))
    (decoded filename : List Char)
    (hn : ¬ "csv".data <:+: lowerStr filename)
    (b64decode : List Char → Option (List Nat))
    (extract : List Nat → Except (List Char) (List MailRecord))
    (unwanted_list : List (List Char)) (c pre payload : List Char) (bytes : List Nat)
    (hsplit : c.splitOn ',' = [pre, payload])
    (hb64 : b64decode payload = some bytes) :
    parse_contents read_csv decoded filename =
      .error "Unsupported file format. Please upload a CSV file.".data ∧
    ∃ df, update_output b64decode extract unwanted_list (some c) filename =
      some (successMsg filename, some df) := by
  constructor
  · unfold parse_contents
    rw [if_neg hn]
  · obtain ⟨df, hdf⟩ := load_pst_returns_ok extract unwanted_list bytes
    refine ⟨df, ?_⟩
    simp only [update_output, hsplit, hb64, hdf, store_result]

/-- C7 witness: the amended theorem at the concrete upload `("t,x",
"a.pst")` with a trivial decoder and extractor. -/
theorem parse_contents_vs_update_output_witness :
    (parse_contents (fun _ => .ok []) "d".data "a.pst".data =
      .error "Unsupported file format. Please upload a CSV file.".data) ∧
    ∃ df, update_output (fun _ => some [1]) (fun _ => .ok []) []
        (some "t,x".data) "a.pst".data = some (successMsg "a.pst".data, some df) :=
  parse_contents_vs_update_output (fun _ => .ok []) "d".data "a.pst".data (by decide)
    (fun _ => some [1]) (fun _ => .ok []) [] "t,x".data "t".data "x".data [1]
    (by decide) rfl

end OutlookTool
